import Mathlib

/-!
Verification development for `ConvleNetDeep.py` (LeNet-style CNN training
script).  The numerical backend (Theano) is external: gradient computation,
the forward pass and the per-batch error rates it returns are modelled as
oracles, deterministic functions of the global iteration count, exactly as
the script's own control flow sees them.  Everything the script itself
decides — data standardization statistics, the L2 penalty, the learning-rate
schedule, the early-stopping loop — is embedded faithfully over `ℚ`.
-/

namespace ConvNet

/-- Mean of a list of rationals, `numpy.mean` over a 1-D array.  For the
empty list this is `0 / 0 = 0` in `ℚ`. -/
def listMeanQ (l : List ℚ) : ℚ := l.sum / l.length

/-! ### Data preparation (lines 190–199)

The script splits the concatenated training pool, then standardizes.  The
statistics are per feature (`axis=0`), so a matrix is a list of rows and the
statistics are functions of the column index. -/

/-- Column `j` of a matrix stored as a list of rows (missing entries read 0;
the script's arrays are rectangular so the default is never hit on real
data). -/
def column (X : List (List ℚ)) (j : ℕ) : List ℚ := X.map (fun r => r.getD j 0)

/-- Per-column mean, `X.mean(axis=0)` at column `j`. -/
def meanCol (X : List (List ℚ)) (j : ℕ) : ℚ := listMeanQ (column X j)

/-- Per-column population variance: the square of `X.std(axis=0)` at column
`j`.  `numpy.std` is the square root of this; the square root of a rational
is in general irrational, so the development tracks the squared statistic,
which determines the standard deviation uniquely (both are nonnegative). -/
def varCol (X : List (List ℚ)) (j : ℕ) : ℚ :=
  listMeanQ ((column X j).map (fun x => (x - meanCol X j) ^ 2))

/-- Line 195: `mean_train = Xtr_rows.mean(axis=0)` — the mean statistic,
computed from the training partition. -/
def mean_train (Xtr_rows : List (List ℚ)) (j : ℕ) : ℚ := meanCol Xtr_rows j

/-- Line 196: `stdv_train = Xte_rows.std(axis=0)` (squared).  Note the
argument: despite its name, the script computes this statistic from
`Xte_rows`, the TEST partition. -/
def stdv_trainSq (Xte_rows : List (List ℚ)) (j : ℕ) : ℚ := varCol Xte_rows j

/-- Modelled from the spec: "feature standardization statistics (mean, std)
computed once from the training partition" — the standard-deviation
statistic (squared) the spec prescribes, a function of the training
partition. -/
def stdvSpecSq (Xtr_rows : List (List ℚ)) (j : ℕ) : ℚ := varCol Xtr_rows j

/-! ### Loss definition (lines 331–337)

The negative log-likelihood term is produced by the external
`LogisticRegression` layer (out of scope per the spec), so it enters as an
opaque rational.  The weight tensors enter flattened, as lists of entries;
only their sums of squares matter to the penalty. -/

/-- Sum of squared entries of a flattened weight tensor, `(W ** 2).sum()`. -/
def sumSq (w : List ℚ) : ℚ := (w.map (fun x => x ^ 2)).sum

/-- The five layers' parameters as the script builds them: three
convolution-pool layers (`layer0`, `layer1`, `layer2conv`), the hidden layer
(`layer2`) and the softmax layer (`layer3`), each with a weight tensor and a
bias vector. -/
structure ModelWeights where
  W0 : List ℚ
  b0 : List ℚ
  W1 : List ℚ
  b1 : List ℚ
  W2conv : List ℚ
  b2conv : List ℚ
  W2 : List ℚ
  b2 : List ℚ
  W3 : List ℚ
  b3 : List ℚ

/-- Line 331: `L2_reg = 0.01`. -/
def L2_reg : ℚ := 1 / 100

/-- Lines 332–335: `L2_sqr = (layer2.W ** 2).sum() + (layer2conv.W ** 2).sum()
+ (layer3.W ** 2).sum()`.  Only these three weight tensors appear. -/
def L2_sqr (m : ModelWeights) : ℚ := sumSq m.W2 + sumSq m.W2conv + sumSq m.W3

/-- Line 337: `cost = layer3.negative_log_likelihood(y) + L2_reg * L2_sqr`,
with the NLL term abstract (external layer). -/
def cost (m : ModelWeights) (nll : ℚ) : ℚ := nll + L2_reg * L2_sqr m

/-- Modelled from the spec: "an L2 penalty (coefficient fixed) summed over
all weight tensors (biases excluded)" — the penalty over all five weight
tensors. -/
def L2_sqrSpec (m : ModelWeights) : ℚ :=
  sumSq m.W0 + sumSq m.W1 + sumSq m.W2conv + sumSq m.W2 + sumSq m.W3

/-- The loss the spec describes: NLL plus the penalty over every weight
tensor. -/
def costSpec (m : ModelWeights) (nll : ℚ) : ℚ := nll + L2_reg * L2_sqrSpec m

/-! ### Mini-batch slicing (lines 249–254, 340–382, 440–442, 461–465)

Each of the three compiled Theano functions takes a batch index `i` and
reads rows `i*batch_size : (i+1)*batch_size` of its partition; the loops
run `i` over `range(n_batches)` with `n_batches = partition_size //
batch_size`. -/

/-- Lines 249–254: `n_batches = shape[0] // batch_size`. -/
def nBatchesOf (size batch_size : ℕ) : ℕ := size / batch_size

/-- The rows one batch reads: `X[i * batch_size : (i + 1) * batch_size]`
(the `givens` slices at lines 344–345, 353–354, 379–380). -/
def batchSlice (batch_size i : ℕ) (X : List α) : List α :=
  (X.drop (i * batch_size)).take batch_size

/-- Mean per-example error over one batch, `layer3.errors(y)` on the rows of
batch `i`; `err` is the external model's per-example error. -/
def batchMeanErr (err : α → ℚ) (batch_size i : ℕ) (X : List α) : ℚ :=
  listMeanQ ((batchSlice batch_size i X).map err)

/-- The score a whole partition reports:
`numpy.mean([model(i) for i in range(n_batches)])` (lines 440–442 and
461–465). -/
def partitionScore (err : α → ℚ) (batch_size : ℕ) (X : List α) : ℚ :=
  listMeanQ ((List.range (nBatchesOf X.length batch_size)).map
    (fun i => batchMeanErr err batch_size i X))

/-! ### The training loop (lines 389–473)

The loop's numeric inputs are produced by the three compiled Theano
functions.  Model parameters evolve deterministically with the number of
`train_model` updates performed, which at any observation point equals the
global iteration count, so each Theano function is modelled as an oracle
keyed by the iteration at which it is called (plus the batch index for the
per-batch error functions). -/

/-- Line 390: `patience = 10000`. -/
def initial_patience : ℕ := 10000

/-- Line 391: `patience_increase = 2`. -/
def patience_increase : ℕ := 2

/-- Line 393: `improvement_threshold = 0.995`. -/
def improvement_threshold : ℚ := 995 / 1000

/-- Hyperparameters of `evaluate_lenet5` together with the external
(Theano-computed) numbers the loop consumes. -/
structure Config where
  /-- Initial learning rate (default argument `learning_rate=0.15`). -/
  learning_rate0 : ℚ
  /-- Epoch limit (default argument `n_epochs=200`). -/
  n_epochs : ℕ
  /-- Mini-batches per training epoch (line 252). -/
  n_train_batches : ℕ
  /-- Mini-batches of the validation partition (line 253). -/
  n_valid_batches : ℕ
  /-- Mini-batches of the test partition (line 254). -/
  n_test_batches : ℕ
  /-- Oracle for `train_model(minibatch_index)` at global iteration `iter`:
  the cost it returns (line 432). -/
  trainCost : ℕ → ℚ
  /-- Oracle for `validate_model(i)` when called after the update of global
  iteration `iter` (line 440). -/
  validErr : ℕ → ℕ → ℚ
  /-- Oracle for `test_model(i)` when called after the update of global
  iteration `iter` (line 462). -/
  testErr : ℕ → ℕ → ℚ

/-- Line 395: `validation_frequency = min(n_train_batches, patience // 2)`
with `patience` still at its initial value 10000, computed once before the
loop. -/
def validation_frequency (cfg : Config) : ℕ :=
  min cfg.n_train_batches (initial_patience / 2)

/-- Lines 440–442: `numpy.mean([validate_model(i) for i in
range(n_valid_batches)])` — mean error over the entire validation
partition. -/
def validationLoss (cfg : Config) (iter : ℕ) : ℚ :=
  listMeanQ ((List.range cfg.n_valid_batches).map (cfg.validErr iter))

/-- Lines 461–465: `numpy.mean([test_model(i) for i in
range(n_test_batches)])` — mean error over the entire test partition. -/
def testScoreAt (cfg : Config) (iter : ℕ) : ℚ :=
  listMeanQ ((List.range cfg.n_test_batches).map (cfg.testErr iter))

/-- Line 450: `this_validation_loss < best_validation_loss`, where
`best_validation_loss` starts as `numpy.inf` (modelled as `none`). -/
def ltInf (v : ℚ) (b : Option ℚ) : Bool :=
  match b with
  | none => true
  | some q => decide (v < q)

/-- Lines 452–453: `this_validation_loss < best_validation_loss *
improvement_threshold` (with `inf * 0.995 = inf`). -/
def ltThresh (v : ℚ) (b : Option ℚ) : Bool :=
  match b with
  | none => true
  | some q => decide (v < q * improvement_threshold)

/-- The loop's mutable state.  `epoch_loss_list` and `epoch_val_list` are the
script's own logs (lines 434–435 and 446–447).  `batch_log` and
`test_eval_iters` and `lr_log` are ghost instrumentation: the processed
mini-batches as `(iter, epoch, minibatch_index)`, the iterations at which
the test loop (lines 461–465) actually ran, and the learning rate in force
during each epoch. -/
structure LoopState where
  epoch : ℕ
  learning_rate : ℚ
  patience : ℕ
  best_validation_loss : Option ℚ
  best_iter : ℕ
  test_score : ℚ
  done_looping : Bool
  epoch_loss_list : List (ℕ × ℕ × ℚ)
  epoch_val_list : List (ℕ × ℕ × ℚ)
  batch_log : List (ℕ × ℕ × ℕ)
  test_eval_iters : List ℕ
  lr_log : List (ℕ × ℚ)

/-- Lines 401–410: the state just before the `while` loop. -/
def initState (cfg : Config) : LoopState where
  epoch := 0
  learning_rate := cfg.learning_rate0
  patience := initial_patience
  best_validation_loss := none
  best_iter := 0
  test_score := 0
  done_looping := false
  epoch_loss_list := []
  epoch_val_list := []
  batch_log := []
  test_eval_iters := []
  lr_log := []

/-- Lines 437–469: the periodic validation check after the update of
iteration `iter`, including the best-so-far update and the conditional test
evaluation. -/
def valPhase (cfg : Config) (iter : ℕ) (s : LoopState) : LoopState :=
  if (iter + 1) % validation_frequency cfg = 0 then
    let v := validationLoss cfg iter
    let s1 := { s with epoch_val_list := s.epoch_val_list ++ [(iter, s.epoch, v)] }
    if ltInf v s.best_validation_loss then
      { s1 with
        patience :=
          if ltThresh v s.best_validation_loss then
            max s1.patience (iter * patience_increase)
          else s1.patience
        best_validation_loss := some v
        best_iter := iter
        test_score := testScoreAt cfg iter
        test_eval_iters := s1.test_eval_iters ++ [iter] }
    else s1
  else s

/-- Lines 426–473, one pass of the `for minibatch_index in
range(n_train_batches)` body: compute the global iteration, run the update,
log the cost, maybe validate, then the patience check that sets
`done_looping` and breaks. -/
def processBatch (cfg : Config) (s : LoopState) (minibatch_index : ℕ) : LoopState :=
  let iter := (s.epoch - 1) * cfg.n_train_batches + minibatch_index
  let s1 := { s with
    epoch_loss_list := s.epoch_loss_list ++ [(iter, s.epoch, cfg.trainCost iter)]
    batch_log := s.batch_log ++ [(iter, s.epoch, minibatch_index)] }
  let s2 := valPhase cfg iter s1
  if s2.patience ≤ iter then { s2 with done_looping := true } else s2

/-- The `for` loop over mini-batch indices, with the `break` of line 473:
once `done_looping` is set the remaining indices are not processed. -/
def runBatches (cfg : Config) : LoopState → List ℕ → LoopState
  | s, [] => s
  | s, i :: rest =>
    let s1 := processBatch cfg s i
    if s1.done_looping then s1 else runBatches cfg s1 rest

/-- Lines 414–417 in isolation: what one epoch's schedule does to the
learning rate — line 415 sets 0.1 when the (already incremented) epoch is
10, then line 417 multiplies by 0.9 when the epoch is at least 18 and the
current rate is still at least `0.1 * 0.9 ^ 6`. -/
def scheduleStep (e : ℕ) (lr : ℚ) : ℚ :=
  let lr1 := if e = 10 then 1 / 10 else lr
  if 18 ≤ e ∧ (1 / 10) * (9 / 10) ^ 6 ≤ lr1 then lr1 * (9 / 10) else lr1

/-- Lines 413–426: one iteration of the `while` loop — increment `epoch`,
apply the learning-rate schedule (lines 414–417), then run the epoch's
mini-batches.  The learning rate in force during the epoch is also recorded
in the ghost `lr_log`.  (The CSV write-outs of lines 418–424 touch no loop
state.) -/
def epochStep (cfg : Config) (s : LoopState) : LoopState :=
  let e := s.epoch + 1
  let lr := scheduleStep e s.learning_rate
  runBatches cfg
    { s with epoch := e, learning_rate := lr, lr_log := s.lr_log ++ [(e, lr)] }
    (List.range cfg.n_train_batches)

/-- Line 412: `while (epoch < n_epochs) and (not done_looping)`.  Each pass
increments `epoch` by one, so `n_epochs` passes always suffice; the loop is
run on explicit fuel and fuel-independence beyond `n_epochs` is proved with
the termination claim. -/
def runLoop (cfg : Config) : ℕ → LoopState → LoopState
  | 0, s => s
  | fuel + 1, s =>
    if s.epoch < cfg.n_epochs ∧ s.done_looping = false then
      runLoop cfg fuel (epochStep cfg s)
    else s

/-- The whole training run of `evaluate_lenet5` from its initial state. -/
def fullRun (cfg : Config) : LoopState := runLoop cfg cfg.n_epochs (initState cfg)

/-! ### The learning-rate schedule as a function of the epoch -/

/-- The learning rate in force during epoch `e` (for `e ≥ 1`), obtained by
iterating the schedule from the initial rate `lr0`. -/
def appliedLr (lr0 : ℚ) : ℕ → ℚ
  | 0 => lr0
  | e + 1 => scheduleStep (e + 1) (appliedLr lr0 e)

/-- The closed form of the default-hyperparameter schedule: 0.15 for epochs
1–9, 0.1 for epochs 10–17, then multiplied by 0.9 at epochs 18 through 24
(the multiplication at epoch 24 fires because the rate still equals
0.1·0.9⁶ there), settling at 0.1·0.9⁷ from epoch 24 on. -/
def lrScheduleFn (e : ℕ) : ℚ :=
  if e < 10 then 3 / 20
  else if e < 18 then 1 / 10
  else (1 / 10) * (9 / 10) ^ (min (e - 17) 7)

/-! ### Folds describing the best-so-far bookkeeping -/

/-- Best-so-far accumulator over a list of validation errors, the fold the
loop's lines 449–457 perform on the recorded errors. -/
def bestAux (b : Option ℚ) : List ℚ → Option ℚ
  | [] => b
  | v :: rest => bestAux (if ltInf v b then some v else b) rest

/-- The iterations of the validation records that strictly improved on the
best validation loss current when they were made (accumulator `b`). -/
def improvingItersAux (b : Option ℚ) : List (ℕ × ℕ × ℚ) → List ℕ
  | [] => []
  | q :: rest =>
    if ltInf q.2.2 b then q.1 :: improvingItersAux (some q.2.2) rest
    else improvingItersAux b rest

/-- Order on best-so-far values with `none` playing `numpy.inf`. -/
def optLE : Option ℚ → Option ℚ → Prop
  | _, none => True
  | none, some _ => False
  | some a, some b => a ≤ b

theorem optLE_refl (a : Option ℚ) : optLE a a := by
  cases a <;> simp [optLE]

theorem optLE_trans {a b c : Option ℚ} (h1 : optLE a b) (h2 : optLE b c) :
    optLE a c := by
  cases a <;> cases b <;> cases c <;> simp_all [optLE]
  exact le_trans h1 h2

theorem bestAux_append (b : Option ℚ) (l : List ℚ) (v : ℚ) :
    bestAux b (l ++ [v]) =
      if ltInf v (bestAux b l) then some v else bestAux b l := by
  induction l generalizing b with
  | nil => rfl
  | cons x xs ih => simpa [bestAux] using ih (if ltInf x b then some x else b)

theorem improvingItersAux_append (b : Option ℚ) (l : List (ℕ × ℕ × ℚ))
    (x : ℕ × ℕ × ℚ) :
    improvingItersAux b (l ++ [x]) =
      improvingItersAux b l ++
        (if ltInf x.2.2 (bestAux b (l.map (fun q => q.2.2))) then [x.1] else []) := by
  induction l generalizing b with
  | nil =>
    by_cases hx : ltInf x.2.2 b <;> simp [improvingItersAux, bestAux, hx]
  | cons y ys ih =>
    by_cases hy : ltInf y.2.2 b <;>
      simp [improvingItersAux, bestAux, hy, ih]

theorem bestAux_eq_foldl (b : ℚ) (l : List ℚ) :
    bestAux (some b) l = some (l.foldl min b) := by
  induction l generalizing b with
  | nil => rfl
  | cons x xs ih =>
    have hbx : (if ltInf x (some b) then some x else some b) = some (min b x) := by
      by_cases h : x < b
      · simp [ltInf, h, min_eq_right (le_of_lt h)]
      · simp [ltInf, h, min_eq_left (le_of_not_lt h)]
    simp only [bestAux, hbx, List.foldl_cons, ih]

theorem bestAux_none_eq_min? (l : List ℚ) : bestAux none l = l.min? := by
  cases l with
  | nil => rfl
  | cons x xs =>
    simp only [bestAux, ltInf, if_pos, List.min?]
    exact bestAux_eq_foldl x xs

/-! ### Field characterizations of the validation phase -/

theorem valPhase_epoch (cfg : Config) (iter : ℕ) (s : LoopState) :
    (valPhase cfg iter s).epoch = s.epoch := by
  by_cases h1 : (iter + 1) % validation_frequency cfg = 0
  · by_cases h2 : ltInf (validationLoss cfg iter) s.best_validation_loss <;>
      simp [valPhase, h1, h2]
  · simp [valPhase, h1]

theorem valPhase_learning_rate (cfg : Config) (iter : ℕ) (s : LoopState) :
    (valPhase cfg iter s).learning_rate = s.learning_rate := by
  by_cases h1 : (iter + 1) % validation_frequency cfg = 0
  · by_cases h2 : ltInf (validationLoss cfg iter) s.best_validation_loss <;>
      simp [valPhase, h1, h2]
  · simp [valPhase, h1]

theorem valPhase_lr_log (cfg : Config) (iter : ℕ) (s : LoopState) :
    (valPhase cfg iter s).lr_log = s.lr_log := by
  by_cases h1 : (iter + 1) % validation_frequency cfg = 0
  · by_cases h2 : ltInf (validationLoss cfg iter) s.best_validation_loss <;>
      simp [valPhase, h1, h2]
  · simp [valPhase, h1]

theorem valPhase_batch_log (cfg : Config) (iter : ℕ) (s : LoopState) :
    (valPhase cfg iter s).batch_log = s.batch_log := by
  by_cases h1 : (iter + 1) % validation_frequency cfg = 0
  · by_cases h2 : ltInf (validationLoss cfg iter) s.best_validation_loss <;>
      simp [valPhase, h1, h2]
  · simp [valPhase, h1]

theorem valPhase_epoch_loss_list (cfg : Config) (iter : ℕ) (s : LoopState) :
    (valPhase cfg iter s).epoch_loss_list = s.epoch_loss_list := by
  by_cases h1 : (iter + 1) % validation_frequency cfg = 0
  · by_cases h2 : ltInf (validationLoss cfg iter) s.best_validation_loss <;>
      simp [valPhase, h1, h2]
  · simp [valPhase, h1]

theorem valPhase_done (cfg : Config) (iter : ℕ) (s : LoopState) :
    (valPhase cfg iter s).done_looping = s.done_looping := by
  by_cases h1 : (iter + 1) % validation_frequency cfg = 0
  · by_cases h2 : ltInf (validationLoss cfg iter) s.best_validation_loss <;>
      simp [valPhase, h1, h2]
  · simp [valPhase, h1]

theorem valPhase_epoch_val_list (cfg : Config) (iter : ℕ) (s : LoopState) :
    (valPhase cfg iter s).epoch_val_list =
      s.epoch_val_list ++
        (if (iter + 1) % validation_frequency cfg = 0 then
          [(iter, s.epoch, validationLoss cfg iter)] else []) := by
  by_cases h1 : (iter + 1) % validation_frequency cfg = 0
  · by_cases h2 : ltInf (validationLoss cfg iter) s.best_validation_loss <;>
      simp [valPhase, h1, h2]
  · simp [valPhase, h1]

theorem valPhase_best (cfg : Config) (iter : ℕ) (s : LoopState) :
    (valPhase cfg iter s).best_validation_loss =
      if ((iter + 1) % validation_frequency cfg = 0 ∧
          ltInf (validationLoss cfg iter) s.best_validation_loss = true) then
        some (validationLoss cfg iter)
      else s.best_validation_loss := by
  by_cases h1 : (iter + 1) % validation_frequency cfg = 0
  · by_cases h2 : ltInf (validationLoss cfg iter) s.best_validation_loss <;>
      simp [valPhase, h1, h2]
  · simp [valPhase, h1]

theorem valPhase_patience (cfg : Config) (iter : ℕ) (s : LoopState) :
    (valPhase cfg iter s).patience =
      if ((iter + 1) % validation_frequency cfg = 0 ∧
          ltInf (validationLoss cfg iter) s.best_validation_loss = true ∧
          ltThresh (validationLoss cfg iter) s.best_validation_loss = true) then
        max s.patience (iter * patience_increase)
      else s.patience := by
  by_cases h1 : (iter + 1) % validation_frequency cfg = 0
  · by_cases h2 : ltInf (validationLoss cfg iter) s.best_validation_loss
    · by_cases h3 : ltThresh (validationLoss cfg iter) s.best_validation_loss <;>
        simp [valPhase, h1, h2, h3]
    · simp [valPhase, h1, h2]
  · simp [valPhase, h1]

theorem valPhase_test_eval_iters (cfg : Config) (iter : ℕ) (s : LoopState) :
    (valPhase cfg iter s).test_eval_iters =
      s.test_eval_iters ++
        (if ((iter + 1) % validation_frequency cfg = 0 ∧
            ltInf (validationLoss cfg iter) s.best_validation_loss = true) then
          [iter] else []) := by
  by_cases h1 : (iter + 1) % validation_frequency cfg = 0
  · by_cases h2 : ltInf (validationLoss cfg iter) s.best_validation_loss <;>
      simp [valPhase, h1, h2]
  · simp [valPhase, h1]

theorem valPhase_test_score (cfg : Config) (iter : ℕ) (s : LoopState) :
    (valPhase cfg iter s).test_score =
      if ((iter + 1) % validation_frequency cfg = 0 ∧
          ltInf (validationLoss cfg iter) s.best_validation_loss = true) then
        testScoreAt cfg iter
      else s.test_score := by
  by_cases h1 : (iter + 1) % validation_frequency cfg = 0
  · by_cases h2 : ltInf (validationLoss cfg iter) s.best_validation_loss <;>
      simp [valPhase, h1, h2]
  · simp [valPhase, h1]

theorem valPhase_patience_mono (cfg : Config) (iter : ℕ) (s : LoopState) :
    s.patience ≤ (valPhase cfg iter s).patience := by
  rw [valPhase_patience]; split
  · exact le_max_left _ _
  · exact le_refl _

/-! ### Field characterizations of one mini-batch step -/

/-- Line 428: the global iteration index of mini-batch `i` of the current
epoch. -/
def pIter (cfg : Config) (s : LoopState) (i : ℕ) : ℕ :=
  (s.epoch - 1) * cfg.n_train_batches + i

theorem processBatch_epoch (cfg : Config) (s : LoopState) (i : ℕ) :
    (processBatch cfg s i).epoch = s.epoch := by
  simp only [processBatch]
  split <;> simp [valPhase_epoch]

theorem processBatch_learning_rate (cfg : Config) (s : LoopState) (i : ℕ) :
    (processBatch cfg s i).learning_rate = s.learning_rate := by
  simp only [processBatch]
  split <;> simp [valPhase_learning_rate]

theorem processBatch_lr_log (cfg : Config) (s : LoopState) (i : ℕ) :
    (processBatch cfg s i).lr_log = s.lr_log := by
  simp only [processBatch]
  split <;> simp [valPhase_lr_log]

theorem processBatch_batch_log (cfg : Config) (s : LoopState) (i : ℕ) :
    (processBatch cfg s i).batch_log =
      s.batch_log ++ [(pIter cfg s i, s.epoch, i)] := by
  simp only [processBatch, pIter]
  split <;> simp [valPhase_batch_log]

theorem processBatch_epoch_loss_list (cfg : Config) (s : LoopState) (i : ℕ) :
    (processBatch cfg s i).epoch_loss_list =
      s.epoch_loss_list ++
        [(pIter cfg s i, s.epoch, cfg.trainCost (pIter cfg s i))] := by
  simp only [processBatch, pIter]
  split <;> simp [valPhase_epoch_loss_list]

theorem processBatch_epoch_val_list (cfg : Config) (s : LoopState) (i : ℕ) :
    (processBatch cfg s i).epoch_val_list =
      s.epoch_val_list ++
        (if (pIter cfg s i + 1) % validation_frequency cfg = 0 then
          [(pIter cfg s i, s.epoch, validationLoss cfg (pIter cfg s i))]
        else []) := by
  simp only [processBatch, pIter]
  split <;> simp [valPhase_epoch_val_list]

theorem processBatch_best (cfg : Config) (s : LoopState) (i : ℕ) :
    (processBatch cfg s i).best_validation_loss =
      if ((pIter cfg s i + 1) % validation_frequency cfg = 0 ∧
          ltInf (validationLoss cfg (pIter cfg s i)) s.best_validation_loss = true) then
        some (validationLoss cfg (pIter cfg s i))
      else s.best_validation_loss := by
  simp only [processBatch, pIter]
  split <;> simp [valPhase_best]

theorem processBatch_patience (cfg : Config) (s : LoopState) (i : ℕ) :
    (processBatch cfg s i).patience =
      if ((pIter cfg s i + 1) % validation_frequency cfg = 0 ∧
          ltInf (validationLoss cfg (pIter cfg s i)) s.best_validation_loss = true ∧
          ltThresh (validationLoss cfg (pIter cfg s i)) s.best_validation_loss = true) then
        max s.patience (pIter cfg s i * patience_increase)
      else s.patience := by
  simp only [processBatch, pIter]
  split <;> simp [valPhase_patience]

theorem processBatch_patience_mono (cfg : Config) (s : LoopState) (i : ℕ) :
    s.patience ≤ (processBatch cfg s i).patience := by
  rw [processBatch_patience]; split
  · exact le_max_left _ _
  · exact le_refl _

theorem processBatch_test_eval_iters (cfg : Config) (s : LoopState) (i : ℕ) :
    (processBatch cfg s i).test_eval_iters =
      s.test_eval_iters ++
        (if ((pIter cfg s i + 1) % validation_frequency cfg = 0 ∧
            ltInf (validationLoss cfg (pIter cfg s i)) s.best_validation_loss = true) then
          [pIter cfg s i] else []) := by
  simp only [processBatch, pIter]
  split <;> simp [valPhase_test_eval_iters]

theorem processBatch_test_score (cfg : Config) (s : LoopState) (i : ℕ) :
    (processBatch cfg s i).test_score =
      if ((pIter cfg s i + 1) % validation_frequency cfg = 0 ∧
          ltInf (validationLoss cfg (pIter cfg s i)) s.best_validation_loss = true) then
        testScoreAt cfg (pIter cfg s i)
      else s.test_score := by
  simp only [processBatch, pIter]
  split <;> simp [valPhase_test_score]

theorem processBatch_done_iff (cfg : Config) (s : LoopState) (i : ℕ) :
    (processBatch cfg s i).done_looping = true ↔
      (s.done_looping = true ∨ (processBatch cfg s i).patience ≤ pIter cfg s i) := by
  have hpat : (processBatch cfg s i).patience =
      (valPhase cfg (pIter cfg s i)
        { s with
          epoch_loss_list := s.epoch_loss_list ++
            [(pIter cfg s i, s.epoch, cfg.trainCost (pIter cfg s i))]
          batch_log := s.batch_log ++ [(pIter cfg s i, s.epoch, i)] }).patience := by
    simp only [processBatch, pIter]
    split <;> rfl
  rw [hpat]
  simp only [processBatch, pIter]
  split <;> rename_i h
  · simp [h]
  · simp [valPhase_done, h]

/-! ### The run invariant -/

/-- The invariant the loop maintains between mini-batches, tying the
best-so-far trackers to the recorded logs. -/
structure CoreInv (cfg : Config) (s : LoopState) : Prop where
  iters_range : s.batch_log.map (fun p => p.1) = List.range s.batch_log.length
  log_len : s.batch_log.length ≤ s.epoch * cfg.n_train_batches
  iter_formula : ∀ p ∈ s.batch_log,
    1 ≤ p.2.1 ∧ p.1 = (p.2.1 - 1) * cfg.n_train_batches + p.2.2
  val_iters : s.epoch_val_list.map (fun q => q.1) =
    (s.batch_log.map (fun p => p.1)).filter
      (fun j => decide ((j + 1) % validation_frequency cfg = 0))
  val_losses : ∀ q ∈ s.epoch_val_list, q.2.2 = validationLoss cfg q.1
  best_eq : s.best_validation_loss =
    bestAux none (s.epoch_val_list.map (fun q => q.2.2))
  tests_eq : s.test_eval_iters = improvingItersAux none s.epoch_val_list
  score_none : s.test_eval_iters.getLast? = none → s.test_score = 0
  score_last : ∀ j, s.test_eval_iters.getLast? = some j →
    s.test_score = testScoreAt cfg j
  patience_lb : initial_patience ≤ s.patience
  live_patience : s.done_looping = false → ∀ p ∈ s.batch_log, p.1 < s.patience
  done_patience : s.done_looping = true →
    ∃ z, s.batch_log.getLast? = some z ∧ s.patience ≤ z.1
  lr_eq : s.learning_rate = appliedLr cfg.learning_rate0 s.epoch
  lr_log_eq : s.lr_log = (List.range s.epoch).map
    (fun k => (k + 1, appliedLr cfg.learning_rate0 (k + 1)))

theorem initState_core (cfg : Config) : CoreInv cfg (initState cfg) := by
  constructor <;>
    simp [initState, appliedLr, bestAux, improvingItersAux, initial_patience]

theorem processBatch_core (cfg : Config) (s : LoopState) (i : ℕ)
    (h : CoreInv cfg s) (hd : s.done_looping = false) (he : 1 ≤ s.epoch)
    (hi : i < cfg.n_train_batches)
    (hpos : s.batch_log.length = (s.epoch - 1) * cfg.n_train_batches + i) :
    CoreInv cfg (processBatch cfg s i) ∧
      (processBatch cfg s i).batch_log.length = s.batch_log.length + 1 := by
  have hit : pIter cfg s i = s.batch_log.length := by
    simpa [pIter] using hpos.symm
  have hbl : (processBatch cfg s i).batch_log =
      s.batch_log ++ [(pIter cfg s i, s.epoch, i)] := processBatch_batch_log cfg s i
  have hlen : (processBatch cfg s i).batch_log.length = s.batch_log.length + 1 := by
    rw [hbl]; simp
  have hmul : s.epoch * cfg.n_train_batches =
      (s.epoch - 1) * cfg.n_train_batches + cfg.n_train_batches := by
    conv_lhs => rw [show s.epoch = (s.epoch - 1) + 1 by omega, Nat.succ_mul]
  refine ⟨⟨?_, ?_, ?_, ?_, ?_, ?_, ?_, ?_, ?_, ?_, ?_, ?_, ?_, ?_⟩, hlen⟩
  · -- iters_range
    rw [hbl]
    simp [h.iters_range, hit, List.range_succ]
  · -- log_len
    rw [hlen, hpos, processBatch_epoch, hmul]; omega
  · -- iter_formula
    intro p hp
    rw [hbl] at hp
    rcases List.mem_append.1 hp with hp | hp
    · exact h.iter_formula p hp
    · rcases List.mem_singleton.1 hp with rfl
      exact ⟨he, by simp [pIter]⟩
  · -- val_iters
    rw [processBatch_epoch_val_list, hbl]
    by_cases hc : (pIter cfg s i + 1) % validation_frequency cfg = 0 <;>
      simp [hc, List.filter_append, h.val_iters, List.filter]
  · -- val_losses
    rw [processBatch_epoch_val_list]
    intro q hq
    rcases List.mem_append.1 hq with hq | hq
    · exact h.val_losses q hq
    · by_cases hc : (pIter cfg s i + 1) % validation_frequency cfg = 0 <;>
        simp [hc] at hq
      rcases hq with rfl
      rfl
  · -- best_eq
    rw [processBatch_best, processBatch_epoch_val_list]
    by_cases hc : (pIter cfg s i + 1) % validation_frequency cfg = 0
    · by_cases hlt : ltInf (validationLoss cfg (pIter cfg s i))
          s.best_validation_loss <;>
        simp [hc, hlt, List.map_append, bestAux_append, ← h.best_eq]
    · simp [hc, h.best_eq]
  · -- tests_eq
    rw [processBatch_test_eval_iters, processBatch_epoch_val_list]
    by_cases hc : (pIter cfg s i + 1) % validation_frequency cfg = 0
    · by_cases hlt : ltInf (validationLoss cfg (pIter cfg s i))
          s.best_validation_loss <;>
        simp [hc, hlt, improvingItersAux_append, ← h.best_eq, h.tests_eq]
    · simp [hc, h.tests_eq]
  · -- score_none
    rw [processBatch_test_eval_iters, processBatch_test_score]
    by_cases hc : ((pIter cfg s i + 1) % validation_frequency cfg = 0 ∧
        ltInf (validationLoss cfg (pIter cfg s i)) s.best_validation_loss = true)
    · simp [hc]
    · simp [hc]
      intro h0
      exact h.score_none (by simp [h0])
  · -- score_last
    rw [processBatch_test_eval_iters, processBatch_test_score]
    by_cases hc : ((pIter cfg s i + 1) % validation_frequency cfg = 0 ∧
        ltInf (validationLoss cfg (pIter cfg s i)) s.best_validation_loss = true)
    · intro j hj
      simp [hc] at hj ⊢
      rw [hj]
    · simp [hc]; exact h.score_last
  · -- patience_lb
    exact h.patience_lb.trans (processBatch_patience_mono cfg s i)
  · -- live_patience
    intro hdone p hp
    have hnp : ¬ (processBatch cfg s i).patience ≤ pIter cfg s i := by
      intro hle
      have : (processBatch cfg s i).done_looping = true :=
        (processBatch_done_iff cfg s i).2 (Or.inr hle)
      rw [hdone] at this
      exact Bool.false_ne_true this
    rw [hbl] at hp
    rcases List.mem_append.1 hp with hp | hp
    · exact lt_of_lt_of_le (h.live_patience hd p hp)
        (processBatch_patience_mono cfg s i)
    · rcases List.mem_singleton.1 hp with rfl
      omega
  · -- done_patience
    intro hdone
    rcases (processBatch_done_iff cfg s i).1 hdone with hcase | hcase
    · rw [hd] at hcase; exact absurd hcase Bool.false_ne_true
    · refine ⟨(pIter cfg s i, s.epoch, i), ?_, hcase⟩
      rw [hbl]
      exact List.getLast?_concat _
  · -- lr_eq
    rw [processBatch_learning_rate, processBatch_epoch]
    exact h.lr_eq
  · -- lr_log_eq
    rw [processBatch_lr_log, processBatch_epoch]
    exact h.lr_log_eq

/-! ### The invariant through the batch loop, one epoch, and the run -/

theorem ltInf_some (v q : ℚ) : ltInf v (some q) = true ↔ v < q := by
  simp [ltInf]

theorem runBatches_epoch (cfg : Config) (l : List ℕ) :
    ∀ s : LoopState, (runBatches cfg s l).epoch = s.epoch := by
  induction l with
  | nil => intro s; rfl
  | cons i rest ih =>
    intro s
    simp only [runBatches]
    split
    · exact processBatch_epoch cfg s i
    · rw [ih, processBatch_epoch]

theorem runBatches_patience_mono (cfg : Config) (l : List ℕ) :
    ∀ s : LoopState, s.patience ≤ (runBatches cfg s l).patience := by
  induction l with
  | nil => intro s; exact le_refl _
  | cons i rest ih =>
    intro s
    simp only [runBatches]
    split
    · exact processBatch_patience_mono cfg s i
    · exact (processBatch_patience_mono cfg s i).trans (ih _)

theorem runBatches_core (cfg : Config) (m : ℕ) :
    ∀ (k : ℕ) (s : LoopState), CoreInv cfg s → s.done_looping = false →
      1 ≤ s.epoch → k + m ≤ cfg.n_train_batches →
      s.batch_log.length = (s.epoch - 1) * cfg.n_train_batches + k →
      CoreInv cfg (runBatches cfg s (List.range' k m)) ∧
        ((runBatches cfg s (List.range' k m)).done_looping = false →
          (runBatches cfg s (List.range' k m)).batch_log.length =
            (s.epoch - 1) * cfg.n_train_batches + k + m) := by
  induction m with
  | zero =>
    intro k s h hd he hkm hpos
    exact ⟨h, fun _ => by simpa using hpos⟩
  | succ m ih =>
    intro k s h hd he hkm hpos
    obtain ⟨h1, hlen1⟩ := processBatch_core cfg s k h hd he (by omega) hpos
    have hstep : List.range' k (m + 1) = k :: List.range' (k + 1) m := rfl
    rw [hstep]
    simp only [runBatches]
    split
    · rename_i hdone
      refine ⟨h1, fun hfalse => ?_⟩
      rw [hfalse] at hdone
      exact absurd hdone Bool.false_ne_true
    · rename_i hdone
      have hd1 : (processBatch cfg s k).done_looping = false := by
        cases hb : (processBatch cfg s k).done_looping
        · rfl
        · exact absurd hb hdone
      have he1 : 1 ≤ (processBatch cfg s k).epoch := by
        rw [processBatch_epoch]; exact he
      have hpos1 : (processBatch cfg s k).batch_log.length =
          ((processBatch cfg s k).epoch - 1) * cfg.n_train_batches + (k + 1) := by
        rw [hlen1, hpos, processBatch_epoch]
        omega
      obtain ⟨h2, hlen2⟩ := ih (k + 1) (processBatch cfg s k) h1 hd1 he1
        (by omega) hpos1
      refine ⟨h2, fun hdf => ?_⟩
      have hl := hlen2 hdf
      rw [processBatch_epoch] at hl
      omega

/-- Invariant at epoch boundaries: the core invariant, plus a full batch log
while the loop is live. -/
structure BoundaryInv (cfg : Config) (s : LoopState) : Prop where
  core : CoreInv cfg s
  boundary : s.done_looping = false →
    s.batch_log.length = s.epoch * cfg.n_train_batches

theorem epochStep_epoch (cfg : Config) (s : LoopState) :
    (epochStep cfg s).epoch = s.epoch + 1 := by
  simp only [epochStep]
  rw [runBatches_epoch]

theorem epochStep_patience_mono (cfg : Config) (s : LoopState) :
    s.patience ≤ (epochStep cfg s).patience := by
  have hm := runBatches_patience_mono cfg (List.range cfg.n_train_batches)
    { s with
      epoch := s.epoch + 1
      learning_rate := scheduleStep (s.epoch + 1) s.learning_rate
      lr_log := s.lr_log ++
        [(s.epoch + 1, scheduleStep (s.epoch + 1) s.learning_rate)] }
  exact hm

theorem epochStep_boundary (cfg : Config) (s : LoopState)
    (h : BoundaryInv cfg s) (hd : s.done_looping = false) :
    BoundaryInv cfg (epochStep cfg s) := by
  have h4 : CoreInv cfg
      { s with
        epoch := s.epoch + 1
        learning_rate := scheduleStep (s.epoch + 1) s.learning_rate
        lr_log := s.lr_log ++
          [(s.epoch + 1, scheduleStep (s.epoch + 1) s.learning_rate)] } := by
    obtain ⟨f1, f2, f3, f4, f5, f6, f7, f8, f9, f10, f11, f12, f13, f14⟩ := h.core
    refine ⟨f1, ?_, f3, f4, f5, f6, f7, f8, f9, f10, ?_, ?_, ?_, ?_⟩
    · exact f2.trans (Nat.mul_le_mul_right _ (Nat.le_succ _))
    · intro _; exact f11 hd
    · intro hdone
      rw [hd] at hdone
      exact absurd hdone Bool.false_ne_true
    · rw [f13]; rfl
    · rw [f14, List.range_succ, List.map_append, f13]; rfl
  have hpos4 : s.batch_log.length =
      ((s.epoch + 1) - 1) * cfg.n_train_batches + 0 := by
    have hby := h.boundary hd
    rw [Nat.add_sub_cancel]
    omega
  have hrun := runBatches_core cfg cfg.n_train_batches 0
    { s with
      epoch := s.epoch + 1
      learning_rate := scheduleStep (s.epoch + 1) s.learning_rate
      lr_log := s.lr_log ++
        [(s.epoch + 1, scheduleStep (s.epoch + 1) s.learning_rate)] }
    h4 hd (Nat.le_add_left 1 s.epoch) (by omega) hpos4
  rw [← List.range_eq_range'] at hrun
  constructor
  · exact hrun.1
  · intro hdf
    have hl := hrun.2 hdf
    have hbl : (epochStep cfg s).batch_log.length =
        (s.epoch + 1 - 1) * cfg.n_train_batches + 0 + cfg.n_train_batches := hl
    rw [hbl, epochStep_epoch, Nat.add_sub_cancel, Nat.succ_mul]
    omega

theorem runLoop_stopped (cfg : Config) (s : LoopState)
    (hc : ¬ (s.epoch < cfg.n_epochs ∧ s.done_looping = false)) :
    ∀ fuel, runLoop cfg fuel s = s := by
  intro fuel
  cases fuel with
  | zero => rfl
  | succ fuel => simp only [runLoop, if_neg hc]

theorem runLoop_done (cfg : Config) (fuel : ℕ) (s : LoopState)
    (hd : s.done_looping = true) : runLoop cfg fuel s = s :=
  runLoop_stopped cfg s (fun hcc => by simp [hd] at hcc) fuel

theorem runLoop_core (cfg : Config) (fuel : ℕ) :
    ∀ s : LoopState, BoundaryInv cfg s →
      BoundaryInv cfg (runLoop cfg fuel s) ∧
        s.epoch ≤ (runLoop cfg fuel s).epoch ∧
        (runLoop cfg fuel s).epoch ≤ max s.epoch cfg.n_epochs ∧
        (cfg.n_epochs ≤ s.epoch + fuel →
          ((runLoop cfg fuel s).done_looping = true ∨
            ¬ (runLoop cfg fuel s).epoch < cfg.n_epochs)) := by
  induction fuel with
  | zero =>
    intro s h
    refine ⟨h, le_refl _, le_max_left _ _, fun hf => Or.inr ?_⟩
    have h0 : runLoop cfg 0 s = s := rfl
    rw [h0]
    omega
  | succ fuel ih =>
    intro s h
    by_cases hc : s.epoch < cfg.n_epochs ∧ s.done_looping = false
    · have hrun : runLoop cfg (fuel + 1) s = runLoop cfg fuel (epochStep cfg s) := by
        simp only [runLoop, if_pos hc]
      rw [hrun]
      obtain ⟨r1, r2, r3, r4⟩ := ih (epochStep cfg s) (epochStep_boundary cfg s h hc.2)
      have hee := epochStep_epoch cfg s
      refine ⟨r1, by omega, by omega, fun hf => r4 (by omega)⟩
    · rw [runLoop_stopped cfg s hc (fuel + 1)]
      refine ⟨h, le_refl _, le_max_left _ _, fun hf => ?_⟩
      by_cases hdl : s.done_looping = true
      · exact Or.inl hdl
      · have hdf : s.done_looping = false := by
          cases hb : s.done_looping
          · rfl
          · exact absurd hb hdl
        exact Or.inr (fun hlt => hc ⟨hlt, hdf⟩)

theorem runLoop_patience_mono (cfg : Config) (fuel : ℕ) :
    ∀ s : LoopState, s.patience ≤ (runLoop cfg fuel s).patience := by
  induction fuel with
  | zero => intro s; exact le_refl _
  | succ fuel ih =>
    intro s
    by_cases hc : s.epoch < cfg.n_epochs ∧ s.done_looping = false
    · have hrun : runLoop cfg (fuel + 1) s = runLoop cfg fuel (epochStep cfg s) := by
        simp only [runLoop, if_pos hc]
      rw [hrun]
      exact (epochStep_patience_mono cfg s).trans (ih _)
    · rw [runLoop_stopped cfg s hc (fuel + 1)]

theorem runLoop_fuel_le (cfg : Config) :
    ∀ (fuel extra : ℕ) (s : LoopState), cfg.n_epochs ≤ s.epoch + fuel →
      runLoop cfg (fuel + extra) s = runLoop cfg fuel s := by
  intro fuel
  induction fuel with
  | zero =>
    intro extra s hf
    have hc : ¬ (s.epoch < cfg.n_epochs ∧ s.done_looping = false) := by
      intro hcc
      omega
    rw [runLoop_stopped cfg s hc, runLoop_stopped cfg s hc]
  | succ fuel ih =>
    intro extra s hf
    by_cases hc : s.epoch < cfg.n_epochs ∧ s.done_looping = false
    · have e1 : runLoop cfg (fuel + 1 + extra) s =
          runLoop cfg (fuel + extra) (epochStep cfg s) := by
        rw [show fuel + 1 + extra = (fuel + extra) + 1 by omega]
        simp only [runLoop, if_pos hc]
      have e2 : runLoop cfg (fuel + 1) s = runLoop cfg fuel (epochStep cfg s) := by
        simp only [runLoop, if_pos hc]
      rw [e1, e2, ih extra (epochStep cfg s) (by rw [epochStep_epoch]; omega)]
    · rw [runLoop_stopped cfg s hc, runLoop_stopped cfg s hc]

theorem fullRun_core (cfg : Config) :
    BoundaryInv cfg (fullRun cfg) ∧
      (fullRun cfg).epoch ≤ cfg.n_epochs ∧
      initial_patience ≤ (fullRun cfg).patience ∧
      ((fullRun cfg).done_looping = true ∨ (fullRun cfg).epoch = cfg.n_epochs) := by
  have hinit : BoundaryInv cfg (initState cfg) :=
    ⟨initState_core cfg, by simp [initState]⟩
  obtain ⟨r1, r2, r3, r4⟩ := runLoop_core cfg cfg.n_epochs (initState cfg) hinit
  have hep : (fullRun cfg).epoch ≤ cfg.n_epochs := by
    simpa [fullRun, initState] using r3
  refine ⟨r1, hep, ?_, ?_⟩
  · have hp := runLoop_patience_mono cfg cfg.n_epochs (initState cfg)
    simpa [fullRun, initState] using hp
  · rcases r4 (by simp [initState]) with hdone | hnl
    · exact Or.inl hdone
    · right
      have hnl2 : ¬ (fullRun cfg).epoch < cfg.n_epochs := hnl
      omega

/-! ### Closed form of the default learning-rate schedule -/

theorem appliedLr_default (e : ℕ) : appliedLr (3 / 20) e = lrScheduleFn e := by
  induction e with
  | zero => simp [appliedLr, lrScheduleFn]
  | succ e ih =>
    rw [show appliedLr (3 / 20) (e + 1) =
        scheduleStep (e + 1) (appliedLr (3 / 20) e) from rfl, ih]
    by_cases h10 : e + 1 < 10
    · have ha : ¬ (e + 1 = 10) := by omega
      have hb : ¬ (18 ≤ e + 1) := by omega
      have hce : e < 10 := by omega
      simp [scheduleStep, lrScheduleFn, ha, hb, hce, h10]
    · by_cases heq : e + 1 = 10
      · simp [scheduleStep, lrScheduleFn, heq]
      · by_cases h18 : e + 1 < 18
        · have ha : ¬ (e < 10) := by omega
          have hb : e < 18 := by omega
          have hc : ¬ (18 ≤ e + 1) := by omega
          have hd2 : ¬ (e + 1 < 10) := by omega
          simp [scheduleStep, lrScheduleFn, heq, ha, hb, hc, hd2, h18]
        · by_cases h24 : e + 1 ≤ 24
          · have hval : lrScheduleFn e = (1 / 10) * (9 / 10) ^ (e - 17) := by
              by_cases h17 : e < 18
              · have he17 : e = 17 := by omega
                subst he17
                norm_num [lrScheduleFn]
              · have hm : min (e - 17) 7 = e - 17 := by omega
                have hna : ¬ (e < 10) := by omega
                simp [lrScheduleFn, hna, h17, hm]
            rw [hval]
            have hle : ((9 : ℚ) / 10) ^ 6 ≤ ((9 : ℚ) / 10) ^ (e - 17) :=
              pow_le_pow_of_le_one (by norm_num) (by norm_num) (by omega)
            have hcond : (1 / 10 : ℚ) * (9 / 10) ^ 6 ≤
                (1 / 10) * (9 / 10) ^ (e - 17) :=
              mul_le_mul_of_nonneg_left hle (by norm_num)
            have ha : ¬ (e + 1 = 10) := by omega
            have hb : 18 ≤ e + 1 := by omega
            have hgoal : scheduleStep (e + 1) ((1 / 10) * (9 / 10) ^ (e - 17)) =
                (1 / 10) * (9 / 10) ^ (e - 17) * (9 / 10) := by
              simp only [scheduleStep]
              rw [if_neg ha, if_pos ⟨hb, hcond⟩]
            rw [hgoal]
            have hrhs : lrScheduleFn (e + 1) = (1 / 10) * (9 / 10) ^ ((e - 17) + 1) := by
              have hna : ¬ (e + 1 < 10) := by omega
              have hnb : ¬ (e + 1 < 18) := by omega
              have hm2 : min (e - 16) 7 = (e - 17) + 1 := by omega
              simp [lrScheduleFn, hna, hnb, hm2]
            rw [hrhs, pow_succ]
            ring
          · have hval : lrScheduleFn e = (1 / 10) * (9 / 10) ^ 7 := by
              have hm : min (e - 17) 7 = 7 := by omega
              have hna : ¬ (e < 10) := by omega
              have hnb : ¬ (e < 18) := by omega
              simp [lrScheduleFn, hna, hnb, hm]
            rw [hval]
            have hnc : ¬ ((1 / 10 : ℚ) * (9 / 10) ^ 6 ≤ (1 / 10) * (9 / 10) ^ 7) := by
              norm_num
            have ha : ¬ (e + 1 = 10) := by omega
            have hgoal : scheduleStep (e + 1) ((1 / 10) * (9 / 10) ^ 7) =
                (1 / 10) * (9 / 10) ^ 7 := by
              simp only [scheduleStep]
              rw [if_neg ha, if_neg (fun hcc => hnc hcc.2)]
            rw [hgoal]
            have hna : ¬ (e + 1 < 10) := by omega
            have hnb : ¬ (e + 1 < 18) := by omega
            have hm2 : min (e - 16) 7 = 7 := by omega
            simp [lrScheduleFn, hna, hnb, hm2]

theorem lrScheduleFn_lb (e : ℕ) :
    (1 / 10 : ℚ) * (9 / 10) ^ 7 ≤ lrScheduleFn e := by
  unfold lrScheduleFn
  split
  · norm_num
  · split
    · norm_num
    · have hle : ((9 : ℚ) / 10) ^ 7 ≤ ((9 : ℚ) / 10) ^ (min (e - 17) 7) :=
        pow_le_pow_of_le_one (by norm_num) (by norm_num) (min_le_right _ _)
      exact mul_le_mul_of_nonneg_left hle (by norm_num)

/-! ### Monotonicity of the best validation loss -/

theorem processBatch_best_mono (cfg : Config) (s : LoopState) (i : ℕ) :
    optLE (processBatch cfg s i).best_validation_loss s.best_validation_loss := by
  rw [processBatch_best]
  split
  · rename_i hcc
    cases hb : s.best_validation_loss with
    | none => simp [optLE]
    | some q =>
      rw [hb] at hcc
      have hlt := (ltInf_some _ q).1 hcc.2
      simpa [optLE] using le_of_lt hlt
  · exact optLE_refl _

theorem runBatches_best_mono (cfg : Config) (l : List ℕ) :
    ∀ s : LoopState,
      optLE (runBatches cfg s l).best_validation_loss s.best_validation_loss := by
  induction l with
  | nil => intro s; exact optLE_refl _
  | cons i rest ih =>
    intro s
    simp only [runBatches]
    split
    · exact processBatch_best_mono cfg s i
    · exact optLE_trans (ih _) (processBatch_best_mono cfg s i)

theorem epochStep_best_mono (cfg : Config) (s : LoopState) :
    optLE (epochStep cfg s).best_validation_loss s.best_validation_loss := by
  have hm := runBatches_best_mono cfg (List.range cfg.n_train_batches)
    { s with
      epoch := s.epoch + 1
      learning_rate := scheduleStep (s.epoch + 1) s.learning_rate
      lr_log := s.lr_log ++
        [(s.epoch + 1, scheduleStep (s.epoch + 1) s.learning_rate)] }
  exact hm

theorem runLoop_best_mono (cfg : Config) (fuel : ℕ) :
    ∀ s : LoopState,
      optLE (runLoop cfg fuel s).best_validation_loss s.best_validation_loss := by
  induction fuel with
  | zero => intro s; exact optLE_refl _
  | succ fuel ih =>
    intro s
    by_cases hc : s.epoch < cfg.n_epochs ∧ s.done_looping = false
    · have hrun : runLoop cfg (fuel + 1) s = runLoop cfg fuel (epochStep cfg s) := by
        simp only [runLoop, if_pos hc]
      rw [hrun]
      exact optLE_trans (ih _) (epochStep_best_mono cfg s)
    · rw [runLoop_stopped cfg s hc (fuel + 1)]
      exact optLE_refl _

/-! ### Slicing facts for the full-batch prefix -/

theorem batchSlice_take (bs i n : ℕ) (X : List α) (hi : i < n) :
    batchSlice bs i (X.take (n * bs)) = batchSlice bs i X := by
  unfold batchSlice
  rw [List.drop_take, List.take_take]
  congr 1
  have h1 : (i + 1) * bs ≤ n * bs := Nat.mul_le_mul_right bs hi
  rw [Nat.succ_mul] at h1
  have hbs : bs ≤ n * bs - i * bs := by omega
  simpa using Nat.min_eq_left hbs

/-- A run that cannot exhaust its patience (every possible iteration index is
below the initial patience) ends at the epoch limit with `done_looping`
still false. -/
theorem fullRun_no_patience_stop (cfg : Config)
    (hsmall : cfg.n_epochs * cfg.n_train_batches ≤ initial_patience) :
    (fullRun cfg).done_looping = false ∧ (fullRun cfg).epoch = cfg.n_epochs := by
  obtain ⟨hb, hep, hpat, hor⟩ := fullRun_core cfg
  have hdf : (fullRun cfg).done_looping = false := by
    cases hdl : (fullRun cfg).done_looping
    · rfl
    · exfalso
      obtain ⟨z, hz1, hz2⟩ := hb.core.done_patience hdl
      have hzmem : z ∈ (fullRun cfg).batch_log := List.mem_of_mem_getLast? hz1
      have hmem2 : z.1 ∈ (fullRun cfg).batch_log.map (fun p => p.1) :=
        List.mem_map_of_mem _ hzmem
      rw [hb.core.iters_range] at hmem2
      have hlt : z.1 < (fullRun cfg).batch_log.length := List.mem_range.1 hmem2
      have h1 := hb.core.log_len
      have h2 : (fullRun cfg).epoch * cfg.n_train_batches ≤
          cfg.n_epochs * cfg.n_train_batches :=
        Nat.mul_le_mul_right _ hep
      omega
  rcases hor with hdone | heq
  · rw [hdf] at hdone
    exact absurd hdone Bool.false_ne_true
  · exact ⟨hdf, heq⟩

/-! ### The claims -/

/-- C1: the spec requires both standardization statistics to come from the
training partition, but line 196 computes `stdv_train` from `Xte_rows`, the
test partition.  At the concrete input with training rows `[[0], [2]]` and
test rows `[[0], [4]]` (one feature), the (squared) standard deviation the
script applies to all three partitions is 4, the test column's variance,
while the training column's variance is 1 — the statistic is derived from
the test data, confirming the code bug.  (The mean, line 195, does come from
the training partition.) -/
theorem C1_std_statistic_from_test_partition :
    mean_train [[0], [2]] 0 = 1 ∧
    stdv_trainSq [[0], [4]] 0 = 4 ∧
    stdvSpecSq [[0], [2]] 0 = 1 ∧
    stdv_trainSq [[0], [4]] 0 ≠ stdvSpecSq [[0], [2]] 0 := by
  norm_num [mean_train, stdv_trainSq, stdvSpecSq, meanCol, varCol, column,
    listMeanQ]

/-- C2 counterexample: with a single unit weight in the FIRST convolution
layer and zero NLL, the script's loss (`cost`, lines 331–337) is 0, while
the loss the claim describes (penalty over every layer's weights,
`costSpec`) is 1/100 — the first convolution layer's weights do not enter
the script's penalty. -/
theorem C2_counterexample :
    cost ⟨[1], [], [], [], [], [], [], [], [], []⟩ 0 = 0 ∧
    costSpec ⟨[1], [], [], [], [], [], [], [], [], []⟩ 0 = 1 / 100 ∧
    cost ⟨[1], [], [], [], [], [], [], [], [], []⟩ 0 ≠
      costSpec ⟨[1], [], [], [], [], [], [], [], [], []⟩ 0 := by
  norm_num [cost, costSpec, L2_sqr, L2_sqrSpec, sumSq, L2_reg]

/-- C2 (amended): the training loss equals the negative log-likelihood plus
the fixed coefficient 0.01 times the sum of squared entries of the THIRD
convolution layer's, the hidden layer's and the softmax layer's weight
tensors only; the first and second convolution layers' weights and all bias
vectors are excluded from the penalty (changing them leaves the loss
unchanged). -/
theorem C2_loss_l2_penalty (m : ModelWeights) (nll : ℚ)
    (w0 w1 c0 c1 c2c c2 c3 : List ℚ) :
    cost m nll = nll + (1 / 100) * (sumSq m.W2 + sumSq m.W2conv + sumSq m.W3) ∧
    cost { m with W0 := w0, W1 := w1, b0 := c0, b1 := c1, b2conv := c2c,
                  b2 := c2, b3 := c3 } nll = cost m nll :=
  ⟨rfl, rfl⟩

/-- A concrete default-hyperparameter configuration whose run reaches epoch
24: 24 epochs, one mini-batch per epoch, constant external oracles. -/
def cfgC3 : Config where
  learning_rate0 := 3 / 20
  n_epochs := 24
  n_train_batches := 1
  n_valid_batches := 1
  n_test_batches := 1
  trainCost := fun _ => 0
  validErr := fun _ _ => 0
  testErr := fun _ _ => 0

/-- C3 (amended): in a run started with the default learning rate 0.15, the
rate applied during each epoch `e` is the pure function `lrScheduleFn e` of
the epoch alone — 0.15 for epochs 1–9, 0.1 from epoch 10, multiplied by 0.9
at each epoch from 18 on while the current rate is still at least 0.1·0.9⁶
— and it is bounded below by 0.1·0.9⁷ (not 0.1·0.9⁶: the multiplication at
epoch 24 fires at exactly 0.1·0.9⁶ and lands below that value). -/
theorem C3_lr_schedule (cfg : Config) (h0 : cfg.learning_rate0 = 3 / 20) :
    ∀ p ∈ (fullRun cfg).lr_log,
      p.2 = lrScheduleFn p.1 ∧ (1 / 10 : ℚ) * (9 / 10) ^ 7 ≤ p.2 := by
  intro p hp
  obtain ⟨hb, _, _, _⟩ := fullRun_core cfg
  rw [hb.core.lr_log_eq, h0] at hp
  obtain ⟨k, hk, rfl⟩ := List.mem_map.1 hp
  constructor
  · show appliedLr (3 / 20) (k + 1) = lrScheduleFn (k + 1)
    exact appliedLr_default _
  · show (1 / 10 : ℚ) * (9 / 10) ^ 7 ≤ appliedLr (3 / 20) (k + 1)
    rw [appliedLr_default]
    exact lrScheduleFn_lb _

theorem C3_lr_schedule_witness :
    cfgC3.learning_rate0 = 3 / 20 ∧
      ∀ p ∈ (fullRun cfgC3).lr_log,
        p.2 = lrScheduleFn p.1 ∧ (1 / 10 : ℚ) * (9 / 10) ^ 7 ≤ p.2 :=
  ⟨rfl, C3_lr_schedule cfgC3 rfl⟩

/-- C3 counterexample: in the concrete default-rate run `cfgC3`, the rate
applied during epoch 24 is 0.1·0.9⁷, strictly below the claimed lower bound
0.1·0.9⁶ — so the applied rate does NOT stay at or above 0.1·0.9⁶. -/
theorem C3_counterexample :
    ((24 : ℕ), (1 / 10 : ℚ) * (9 / 10) ^ 7) ∈ (fullRun cfgC3).lr_log ∧
      (1 / 10 : ℚ) * (9 / 10) ^ 7 < (1 / 10) * (9 / 10) ^ 6 := by
  constructor
  · obtain ⟨hb, _, _, _⟩ := fullRun_core cfgC3
    obtain ⟨hdf, hep⟩ := fullRun_no_patience_stop cfgC3
      (by norm_num [cfgC3, initial_patience])
    have hlr : cfgC3.learning_rate0 = 3 / 20 := rfl
    rw [hb.core.lr_log_eq, hep, hlr]
    refine List.mem_map.2 ⟨23, List.mem_range.2 (by norm_num [cfgC3]), ?_⟩
    have h24 : appliedLr (3 / 20) (23 + 1) = (1 / 10 : ℚ) * (9 / 10) ^ 7 := by
      rw [appliedLr_default]
      norm_num [lrScheduleFn]
    rw [h24]
  · norm_num

/-- C4: `best_validation_loss` is updated exactly when a validation check
fires and its error is strictly below the current best (step
characterization), it never increases across a mini-batch, an epoch, or the
whole loop (`optLE`, with `none` as the initial `numpy.inf`), and at the end
of the run it equals the minimum of all recorded validation errors. -/
theorem C4_best_validation_loss (cfg : Config) :
    (∀ s i, (processBatch cfg s i).best_validation_loss =
      if ((pIter cfg s i + 1) % validation_frequency cfg = 0 ∧
          ltInf (validationLoss cfg (pIter cfg s i)) s.best_validation_loss = true) then
        some (validationLoss cfg (pIter cfg s i))
      else s.best_validation_loss) ∧
    (∀ s i, optLE (processBatch cfg s i).best_validation_loss
      s.best_validation_loss) ∧
    (∀ s, optLE (epochStep cfg s).best_validation_loss s.best_validation_loss) ∧
    (∀ fuel s, optLE (runLoop cfg fuel s).best_validation_loss
      s.best_validation_loss) ∧
    (fullRun cfg).best_validation_loss =
      ((fullRun cfg).epoch_val_list.map (fun q => q.2.2)).min? := by
  obtain ⟨hb, _, _, _⟩ := fullRun_core cfg
  refine ⟨processBatch_best cfg, processBatch_best_mono cfg,
    epochStep_best_mono cfg, fun fuel s => runLoop_best_mono cfg fuel s, ?_⟩
  rw [hb.core.best_eq, bestAux_none_eq_min?]

/-- C5: the run stops no later than the configured epoch limit (any fuel at
least `n_epochs` yields the same final state, and the final epoch is at most
`n_epochs`); exactly one of the two stop conditions ends it — either
`done_looping` was set, in which case the last processed mini-batch is one
whose iteration reached the patience (`patience ≤ iter`), or the run went
the full `n_epochs` epochs with every processed iteration strictly below the
patience; and once the patience check fires, no further mini-batch of the
epoch and no further epoch is started. -/
theorem C5_termination (cfg : Config) :
    (fullRun cfg).epoch ≤ cfg.n_epochs ∧
    (∀ fuel, cfg.n_epochs ≤ fuel →
      runLoop cfg fuel (initState cfg) = fullRun cfg) ∧
    (((fullRun cfg).done_looping = true ∧
        ∃ z, (fullRun cfg).batch_log.getLast? = some z ∧
          (fullRun cfg).patience ≤ z.1) ∨
      ((fullRun cfg).done_looping = false ∧
        (fullRun cfg).epoch = cfg.n_epochs ∧
        ∀ p ∈ (fullRun cfg).batch_log, p.1 < (fullRun cfg).patience)) ∧
    (∀ s i l, (processBatch cfg s i).done_looping = true →
      runBatches cfg s (i :: l) = processBatch cfg s i) ∧
    (∀ fuel s, s.done_looping = true → runLoop cfg fuel s = s) := by
  obtain ⟨hb, hep, hpat, hor⟩ := fullRun_core cfg
  refine ⟨hep, ?_, ?_, ?_, ?_⟩
  · intro fuel hf
    have hfl := runLoop_fuel_le cfg cfg.n_epochs (fuel - cfg.n_epochs)
      (initState cfg) (by simp [initState])
    rw [show cfg.n_epochs + (fuel - cfg.n_epochs) = fuel by omega] at hfl
    exact hfl
  · cases hdl : (fullRun cfg).done_looping
    · right
      refine ⟨rfl, ?_, hb.core.live_patience hdl⟩
      rcases hor with hdone | heq
      · rw [hdl] at hdone
        exact absurd hdone Bool.false_ne_true
      · exact heq
    · left
      exact ⟨rfl, hb.core.done_patience hdl⟩
  · intro s i l hdone
    simp only [runBatches]
    rw [if_pos hdone]
  · exact fun fuel s hd => runLoop_done cfg fuel s hd

/-- C6: the test partition is evaluated exactly at the validation checks
whose error strictly improves on the best so far (the ghost list of test
evaluations equals, in order, the improving checks' iterations, and one
evaluation is appended per improving check), never on a non-improving check;
the recorded test score is the one computed at the most recent improvement
(and `0.`, its initial value, when none happened). -/
theorem C6_test_evaluation (cfg : Config) :
    (∀ s i, (processBatch cfg s i).test_eval_iters =
      s.test_eval_iters ++
        (if ((pIter cfg s i + 1) % validation_frequency cfg = 0 ∧
            ltInf (validationLoss cfg (pIter cfg s i))
              s.best_validation_loss = true) then
          [pIter cfg s i] else [])) ∧
    (fullRun cfg).test_eval_iters =
      improvingItersAux none (fullRun cfg).epoch_val_list ∧
    ((fullRun cfg).test_eval_iters.getLast? = none →
      (fullRun cfg).test_score = 0) ∧
    (∀ j, (fullRun cfg).test_eval_iters.getLast? = some j →
      (fullRun cfg).test_score = testScoreAt cfg j) := by
  obtain ⟨hb, _, _, _⟩ := fullRun_core cfg
  exact ⟨processBatch_test_eval_iters cfg, hb.core.tests_eq,
    hb.core.score_none, hb.core.score_last⟩

/-- C7: every mini-batch is processed with global iteration index
`(epoch − 1) * n_train_batches + minibatch_index` (both as the step computes
it and as recorded over the whole run), and the sequence of iteration
indices over the run is `0, 1, 2, …` — in particular strictly
increasing. -/
theorem C7_iteration_index (cfg : Config) :
    (∀ s i, (processBatch cfg s i).batch_log =
      s.batch_log ++ [((s.epoch - 1) * cfg.n_train_batches + i, s.epoch, i)]) ∧
    (∀ p ∈ (fullRun cfg).batch_log,
      1 ≤ p.2.1 ∧ p.1 = (p.2.1 - 1) * cfg.n_train_batches + p.2.2) ∧
    (fullRun cfg).batch_log.map (fun p => p.1) =
      List.range (fullRun cfg).batch_log.length ∧
    List.Pairwise (fun a b => a < b)
      ((fullRun cfg).batch_log.map (fun p => p.1)) := by
  obtain ⟨hb, _, _, _⟩ := fullRun_core cfg
  refine ⟨?_, hb.core.iter_formula, hb.core.iters_range, ?_⟩
  · intro s i
    simpa [pIter] using processBatch_batch_log cfg s i
  · rw [hb.core.iters_range]
    exact List.pairwise_lt_range _

/-- C8: `validation_frequency` is computed once as
`min(n_train_batches, patience // 2)` with the initial patience 10000, and a
validation evaluation — the mean error over the entire validation partition,
recorded with the iteration — happens after a mini-batch exactly when
`(iter + 1) % validation_frequency == 0`: the recorded validation iterations
are precisely the processed iterations passing that test, and every recorded
error is the full-partition mean at its iteration. -/
theorem C8_validation_frequency (cfg : Config) :
    validation_frequency cfg = min cfg.n_train_batches (initial_patience / 2) ∧
    (∀ s i, (processBatch cfg s i).epoch_val_list =
      s.epoch_val_list ++
        (if (pIter cfg s i + 1) % validation_frequency cfg = 0 then
          [(pIter cfg s i, s.epoch, validationLoss cfg (pIter cfg s i))]
        else [])) ∧
    (fullRun cfg).epoch_val_list.map (fun q => q.1) =
      ((fullRun cfg).batch_log.map (fun p => p.1)).filter
        (fun j => decide ((j + 1) % validation_frequency cfg = 0)) ∧
    (∀ q ∈ (fullRun cfg).epoch_val_list, q.2.2 = validationLoss cfg q.1) := by
  obtain ⟨hb, _, _, _⟩ := fullRun_core cfg
  exact ⟨rfl, processBatch_epoch_val_list cfg, hb.core.val_iters,
    hb.core.val_losses⟩

/-- C9: patience starts at 10000 and, per mini-batch, becomes
`max(patience, iter * 2)` exactly when a validation check fires with an
error strictly below the best AND below best × 0.995; in every other case it
is unchanged — so it never decreases across a mini-batch, an epoch, or the
whole run, and the final patience is still at least 10000. -/
theorem C9_patience (cfg : Config) :
    (initState cfg).patience = 10000 ∧
    patience_increase = 2 ∧
    (∀ s i, (processBatch cfg s i).patience =
      if ((pIter cfg s i + 1) % validation_frequency cfg = 0 ∧
          ltInf (validationLoss cfg (pIter cfg s i))
            s.best_validation_loss = true ∧
          ltThresh (validationLoss cfg (pIter cfg s i))
            s.best_validation_loss = true) then
        max s.patience (pIter cfg s i * patience_increase)
      else s.patience) ∧
    (∀ s i, s.patience ≤ (processBatch cfg s i).patience) ∧
    (∀ s, s.patience ≤ (epochStep cfg s).patience) ∧
    (∀ fuel s, s.patience ≤ (runLoop cfg fuel s).patience) ∧
    10000 ≤ (fullRun cfg).patience := by
  obtain ⟨_, _, hpat, _⟩ := fullRun_core cfg
  exact ⟨rfl, rfl, processBatch_patience cfg, processBatch_patience_mono cfg,
    epochStep_patience_mono cfg, fun fuel s => runLoop_patience_mono cfg fuel s,
    hpat⟩

/-- C10: with `n = partition_size / batch_size` full mini-batches, each
batch's slice reads only the first `n * batch_size` rows, so two partitions
of the same length agreeing on that prefix have identical batch slices and
an identical reported mean score — trailing examples beyond the last full
batch never influence the computed means; and the loop's recorded
full-partition validation loss is exactly that mean when the per-batch
oracle agrees with the data-level batch errors. -/
theorem C10_full_batches {α : Type} (err : α → ℚ) (bs : ℕ) (X Y : List α)
    (hlen : X.length = Y.length)
    (hpre : X.take (nBatchesOf X.length bs * bs) =
      Y.take (nBatchesOf X.length bs * bs)) :
    (∀ i, i < nBatchesOf X.length bs →
      batchSlice bs i X =
        batchSlice bs i (X.take (nBatchesOf X.length bs * bs))) ∧
    (∀ i, i < nBatchesOf X.length bs → batchSlice bs i X = batchSlice bs i Y) ∧
    partitionScore err bs X = partitionScore err bs Y ∧
    (∀ (cfg : Config) (iter : ℕ),
      cfg.n_valid_batches = nBatchesOf X.length bs →
      (∀ j, cfg.validErr iter j = batchMeanErr err bs j X) →
      validationLoss cfg iter = partitionScore err bs X) := by
  have hnb : nBatchesOf Y.length bs = nBatchesOf X.length bs := by rw [hlen]
  have hslice : ∀ i, i < nBatchesOf X.length bs →
      batchSlice bs i X = batchSlice bs i Y := by
    intro i hi
    calc batchSlice bs i X
        = batchSlice bs i (X.take (nBatchesOf X.length bs * bs)) :=
          (batchSlice_take bs i _ X hi).symm
      _ = batchSlice bs i (Y.take (nBatchesOf X.length bs * bs)) := by rw [hpre]
      _ = batchSlice bs i Y := batchSlice_take bs i _ Y hi
  refine ⟨fun i hi => (batchSlice_take bs i _ X hi).symm, hslice, ?_, ?_⟩
  · have hmap : (List.range (nBatchesOf X.length bs)).map
        (fun i => batchMeanErr err bs i X) =
        (List.range (nBatchesOf X.length bs)).map
          (fun i => batchMeanErr err bs i Y) := by
      apply List.map_congr_left
      intro i hi
      unfold batchMeanErr
      rw [hslice i (List.mem_range.1 hi)]
    unfold partitionScore
    rw [hmap, hnb]
  · intro cfg iter hv he2
    unfold validationLoss partitionScore
    rw [hv]
    congr 1
    apply List.map_congr_left
    intro j _
    exact he2 j

theorem C10_full_batches_witness :
    ([1, 2, 3] : List ℚ).length = ([1, 2, 9] : List ℚ).length ∧
    partitionScore id 2 ([1, 2, 3] : List ℚ) =
      partitionScore id 2 ([1, 2, 9] : List ℚ) :=
  ⟨rfl, (C10_full_batches id 2 [1, 2, 3] [1, 2, 9] rfl rfl).2.2.1⟩

end ConvNet
